import Mathlib

/-!
Shallow embedding of the CHIP-8 interpreter core (`src/lib.rs` of the
repository) together with proofs about the claims of the specification.

Modelling conventions:
* `u8` and `u16` machine integers become `Nat` with explicit `% 256`
  (resp. `% 65536`) at every write that can wrap or truncate in the source
  (Rust `wrapping_add`, `wrapping_sub`, `as u8` casts, `u16` arithmetic).
* Arrays (`ram`, `vx`, `display`, `stack`, `keypad`) become total functions
  from `Nat`; an index write becomes `Function.update`.
* The one side effect of `decode_execute` (the `println!` on an unknown
  opcode) is modelled by returning `Option Nat` carrying the raw word.
* The random byte drawn inside the `CxNN` handler is passed in explicitly
  as an extra argument `r` (its low eight bits are the random byte).
-/

set_option maxRecDepth 8192

namespace Chip8Emu

/-- Font table preloaded at construction, 16 glyphs of 5 bytes each
(`FONT_SET` in the source). -/
def FONT_SET : List Nat :=
  [0xF0, 0x90, 0x90, 0x90, 0xF0,
   0x20, 0x60, 0x20, 0x20, 0x70,
   0xF0, 0x10, 0xF0, 0x80, 0xF0,
   0xF0, 0x10, 0xF0, 0x10, 0xF0,
   0x90, 0x90, 0xF0, 0x10, 0x10,
   0xF0, 0x80, 0xF0, 0x10, 0xF0,
   0xF0, 0x80, 0xF0, 0x90, 0xF0,
   0xF0, 0x10, 0x20, 0x40, 0x40,
   0xF0, 0x90, 0xF0, 0x90, 0xF0,
   0xF0, 0x90, 0xF0, 0x10, 0xF0,
   0xF0, 0x90, 0xF0, 0x90, 0x90,
   0xE0, 0x90, 0xE0, 0x90, 0xE0,
   0xF0, 0x80, 0x80, 0x80, 0xF0,
   0xE0, 0x90, 0x90, 0x90, 0xE0,
   0xF0, 0x80, 0xF0, 0x80, 0xF0,
   0xF0, 0x80, 0xF0, 0x80, 0x80]

/-- Base address of the font table (`FONT_START_ADDR` in the source). -/
def FONT_START_ADDR : Nat := 0x050

/-- Machine state of the interpreter (`struct Chip8` in the source).
Arrays are modelled as total functions; machine integers as `Nat`. -/
@[ext] structure Chip8 where
  ram : Nat → Nat
  pc : Nat
  i : Nat
  vx : Nat → Nat
  display : Nat → Nat
  draw_flag : Bool
  stack : Nat → Nat
  sp : Nat
  keypad : Nat → Bool
  delay_timer : Nat
  sound_timer : Nat

/-- Wrapping 8-bit addition, `u8::wrapping_add`. -/
def wrapping_add8 (a b : Nat) : Nat := (a + b) % 256

/-- Wrapping 8-bit subtraction, `u8::wrapping_sub`. -/
def wrapping_sub8 (a b : Nat) : Nat := (a + (256 - b % 256)) % 256

/-- Constructor `Chip8::new`: everything zeroed except the font table,
which is copied into ram at `FONT_START_ADDR`. -/
def Chip8.new : Chip8 where
  ram := fun a =>
    if FONT_START_ADDR ≤ a ∧ a < FONT_START_ADDR + FONT_SET.length
    then FONT_SET.getD (a - FONT_START_ADDR) 0 else 0
  pc := 0
  i := 0
  vx := fun _ => 0
  display := fun _ => 0
  draw_flag := false
  stack := fun _ => 0
  sp := 0
  keypad := fun _ => false
  delay_timer := 0
  sound_timer := 0

/-- Timer tick (`tick_timers`): each timer decrements when positive. -/
def Chip8.tick_timers (s : Chip8) : Chip8 :=
  { s with
    delay_timer := if 0 < s.delay_timer then s.delay_timer - 1 else s.delay_timer
    sound_timer := if 0 < s.sound_timer then s.sound_timer - 1 else s.sound_timer }

/-- ROM load (`load_rom`): sets `pc` to 0x200 and copies
`min data.length (4096 - 0x200)` bytes into ram starting at 0x200. -/
def Chip8.load_rom (s : Chip8) (data : List Nat) : Chip8 :=
  let start_addr := 0x200
  let copy_len := min data.length (4096 - start_addr)
  { s with
    pc := start_addr
    ram := fun a =>
      if start_addr ≤ a ∧ a < start_addr + copy_len
      then data.getD (a - start_addr) 0 else s.ram a }

/-- Fetch (`fetch`): reads the big-endian word at `pc` and advances `pc`
by two.  Returns the word together with the updated state. -/
def Chip8.fetch (s : Chip8) : Nat × Chip8 :=
  let high_byte := s.ram s.pc
  let low_byte := s.ram (s.pc + 1)
  ((high_byte <<< 8) ||| low_byte, { s with pc := (s.pc + 2) % 65536 })

/-- Opcode 00E0 (`op_00e0`): clear the display, set the dirty flag. -/
def Chip8.op_00e0 (s : Chip8) : Chip8 :=
  { s with display := fun _ => 0, draw_flag := true }

/-- Opcode 00EE (`op_00ee`): return from a subroutine — decrement `sp`,
then load `pc` from the stack slot at the new `sp`. -/
def Chip8.op_00ee (s : Chip8) : Chip8 :=
  let sp1 := (s.sp + 65535) % 65536
  { s with sp := sp1, pc := s.stack sp1 }

/-- Opcode 0NNN (`op_0nnn`): machine language routine, ignored. -/
def Chip8.op_0nnn (s : Chip8) (_addr : Nat) : Chip8 := s

/-- Opcode 1NNN (`op_1nnn`): absolute jump. -/
def Chip8.op_1nnn (s : Chip8) (addr : Nat) : Chip8 := { s with pc := addr }

/-- Opcode 2NNN (`op_2nnn`): call — push the current `pc`, bump `sp`,
jump to `addr`. -/
def Chip8.op_2nnn (s : Chip8) (addr : Nat) : Chip8 :=
  { s with
    stack := Function.update s.stack s.sp s.pc
    sp := (s.sp + 1) % 65536
    pc := addr }

/-- Opcode 3xNN (`op_3xnn`): skip next instruction when `Vx = NN`. -/
def Chip8.op_3xnn (s : Chip8) (x nn : Nat) : Chip8 :=
  if s.vx x = nn then { s with pc := (s.pc + 2) % 65536 } else s

/-- Opcode 4xNN (`op_4xnn`): skip next instruction when `Vx ≠ NN`. -/
def Chip8.op_4xnn (s : Chip8) (x nn : Nat) : Chip8 :=
  if s.vx x ≠ nn then { s with pc := (s.pc + 2) % 65536 } else s

/-- Opcode 5xy0 (`op_5xy0`): skip next instruction when `Vx = Vy`. -/
def Chip8.op_5xy0 (s : Chip8) (x y : Nat) : Chip8 :=
  if s.vx x = s.vx y then { s with pc := (s.pc + 2) % 65536 } else s

/-- Opcode 6xNN (`op_6xnn`): set `Vx := NN`. -/
def Chip8.op_6xnn (s : Chip8) (x nn : Nat) : Chip8 :=
  { s with vx := Function.update s.vx x nn }

/-- Opcode 7xNN (`op_7xnn`): `Vx := Vx + NN` wrapping, no flag. -/
def Chip8.op_7xnn (s : Chip8) (x nn : Nat) : Chip8 :=
  { s with vx := Function.update s.vx x (wrapping_add8 (s.vx x) nn) }

/-- Opcode 8xy0 (`op_8xy0`): `Vx := Vy`. -/
def Chip8.op_8xy0 (s : Chip8) (x y : Nat) : Chip8 :=
  { s with vx := Function.update s.vx x (s.vx y) }

/-- Opcode 8xy1 (`op_8xy1`): `Vx := Vx OR Vy`. -/
def Chip8.op_8xy1 (s : Chip8) (x y : Nat) : Chip8 :=
  { s with vx := Function.update s.vx x (s.vx x ||| s.vx y) }

/-- Opcode 8xy2 (`op_8xy2`): `Vx := Vx AND Vy`. -/
def Chip8.op_8xy2 (s : Chip8) (x y : Nat) : Chip8 :=
  { s with vx := Function.update s.vx x (s.vx x &&& s.vx y) }

/-- Opcode 8xy3 (`op_8xy3`): `Vx := Vx XOR Vy`. -/
def Chip8.op_8xy3 (s : Chip8) (x y : Nat) : Chip8 :=
  { s with vx := Function.update s.vx x (s.vx x ^^^ s.vx y) }

/-- Opcode 8xy4 (`op_8xy4`): widen, sum, store the low byte into `Vx`,
then write the carry into `VF` (the flag write happens last). -/
def Chip8.op_8xy4 (s : Chip8) (x y : Nat) : Chip8 :=
  let val_x := s.vx x
  let val_y := s.vx y
  let sum := val_x + val_y
  let carry := if 0xFF < sum then 1 else 0
  let s1 := { s with vx := Function.update s.vx x (sum &&& 0xFF) }
  { s1 with vx := Function.update s1.vx 0xF carry }

/-- Opcode 8xy5 (`op_8xy5`): write NOT-borrow into `VF` first, then
`Vx := Vx - Vy` wrapping (the subtraction reads the updated file). -/
def Chip8.op_8xy5 (s : Chip8) (x y : Nat) : Chip8 :=
  let s1 := { s with vx := Function.update s.vx 0xF (if s.vx y ≤ s.vx x then 1 else 0) }
  { s1 with vx := Function.update s1.vx x (wrapping_sub8 (s1.vx x) (s1.vx y)) }

/-- Opcode 8xy6 (`op_8xy6`): write the least significant bit of `Vx` into
`VF` first, then shift `Vx` right by one. -/
def Chip8.op_8xy6 (s : Chip8) (x _y : Nat) : Chip8 :=
  let s1 := { s with vx := Function.update s.vx 0xF (s.vx x &&& 0x1) }
  { s1 with vx := Function.update s1.vx x (s1.vx x >>> 1) }

/-- Opcode 8xy7 (`op_8xy7`): write NOT-borrow into `VF` first, then
`Vx := Vy - Vx` wrapping (the subtraction reads the updated file). -/
def Chip8.op_8xy7 (s : Chip8) (x y : Nat) : Chip8 :=
  let s1 := { s with vx := Function.update s.vx 0xF (if s.vx x ≤ s.vx y then 1 else 0) }
  { s1 with vx := Function.update s1.vx x (wrapping_sub8 (s1.vx y) (s1.vx x)) }

/-- Opcode 8xyE (`op_8xye`): write the most significant bit of `Vx` into
`VF` first, then shift `Vx` left by one (truncating to a byte). -/
def Chip8.op_8xye (s : Chip8) (x _y : Nat) : Chip8 :=
  let s1 := { s with vx := Function.update s.vx 0xF ((s.vx x &&& 0x80) >>> 7) }
  { s1 with vx := Function.update s1.vx x ((s1.vx x <<< 1) % 256) }

/-- Opcode 9xy0 (`op_9xy0`): skip next instruction when `Vx ≠ Vy`. -/
def Chip8.op_9xy0 (s : Chip8) (x y : Nat) : Chip8 :=
  if s.vx x ≠ s.vx y then { s with pc := (s.pc + 2) % 65536 } else s

/-- Opcode ANNN (`op_annn`): `I := NNN`. -/
def Chip8.op_annn (s : Chip8) (addr : Nat) : Chip8 := { s with i := addr }

/-- Opcode BNNN (`op_bnnn`): jump to `NNN + V0`. -/
def Chip8.op_bnnn (s : Chip8) (addr : Nat) : Chip8 :=
  { s with pc := (addr + s.vx 0) % 65536 }

/-- Opcode CxNN (`op_cxnn`): `Vx := random byte AND NN`; the random byte
is modelled as the low eight bits of the extra argument `r`. -/
def Chip8.op_cxnn (s : Chip8) (x nn r : Nat) : Chip8 :=
  { s with vx := Function.update s.vx x ((r % 256) &&& nn) }

/-- One column step of the sprite-draw inner loop in `op_dxyn`: test the
sprite bit for `mask = 0x80 >> col` (MSB first), and when it is set,
detect collision against the destination pixel
`screen_idx = (xc + col) % 64 + cy * 64` (setting `VF` to 1 when the
pixel is already 1) and XOR the pixel; the two sequential statements of
the source are composed into one state update per branch (the collision
test writes only `VF`, so the pixel read by the XOR is unchanged by it). -/
def Chip8.drawCol (xc cy b : Nat) (s : Chip8) (col : Nat) : Chip8 :=
  if b &&& (0x80 >>> col) ≠ 0 then
    if s.display ((xc + col) % 64 + cy * 64) = 1 then
      { s with
        vx := Function.update s.vx 0xF 1
        display := Function.update s.display ((xc + col) % 64 + cy * 64)
          (s.display ((xc + col) % 64 + cy * 64) ^^^ 1) }
    else
      { s with
        display := Function.update s.display ((xc + col) % 64 + cy * 64)
          (s.display ((xc + col) % 64 + cy * 64) ^^^ 1) }
  else s

/-- One row step of the sprite-draw outer loop in `op_dxyn`: the row
coordinate wraps as `(yc + row) % 32`, the sprite byte is read at
`I + row`, and the 8 columns are processed in order. -/
def Chip8.drawRow (xc yc : Nat) (s : Chip8) (row : Nat) : Chip8 :=
  (List.range 8).foldl (Chip8.drawCol xc ((yc + row) % 32) (s.ram (s.i + row))) s

/-- Opcode DxyN (`op_dxyn`): draw an N-row sprite at `(Vx mod 64, Vy mod 32)`
with per-pixel wrap-around, reset `VF`, record collisions in `VF`, set
the dirty flag unconditionally. -/
def Chip8.op_dxyn (s : Chip8) (x_idx y_idx height : Nat) : Chip8 :=
  { (List.range height).foldl
      (Chip8.drawRow (s.vx x_idx % 64) (s.vx y_idx % 32))
      { s with vx := Function.update s.vx 0xF 0 } with
    draw_flag := true }

/-- Opcode Ex9E (`op_ex9e`): skip next instruction when key `Vx` is down. -/
def Chip8.op_ex9e (s : Chip8) (x : Nat) : Chip8 :=
  if s.keypad (s.vx x) then { s with pc := (s.pc + 2) % 65536 } else s

/-- Opcode ExA1 (`op_exa1`): skip next instruction when key `Vx` is up. -/
def Chip8.op_exa1 (s : Chip8) (x : Nat) : Chip8 :=
  if ¬ s.keypad (s.vx x) then { s with pc := (s.pc + 2) % 65536 } else s

/-- Opcode Fx07 (`op_fx07`): `Vx := delay timer`. -/
def Chip8.op_fx07 (s : Chip8) (x : Nat) : Chip8 :=
  { s with vx := Function.update s.vx x s.delay_timer }

/-- Linear scan of the keypad used by `op_fx0a`: starting at index `i`,
try `n` consecutive indices and return the first pressed one.  This is
the `for i in 1..16 { ... break }` loop of the source. -/
def findKeyAux (keypad : Nat → Bool) : Nat → Nat → Option Nat
  | 0, _ => none
  | n + 1, i => if keypad i then some i else findKeyAux keypad n (i + 1)

/-- Opcode Fx0A (`op_fx0a`): scan keys 1..15 for the first pressed one;
when found store its index into `Vx`, otherwise rewind `pc` by two. -/
def Chip8.op_fx0a (s : Chip8) (x : Nat) : Chip8 :=
  match findKeyAux s.keypad 15 1 with
  | some k => { s with vx := Function.update s.vx x k }
  | none => { s with pc := (s.pc + 65534) % 65536 }

/-- Opcode Fx15 (`op_fx15`): `delay timer := Vx`. -/
def Chip8.op_fx15 (s : Chip8) (x : Nat) : Chip8 := { s with delay_timer := s.vx x }

/-- Opcode Fx18 (`op_fx18`): `sound timer := Vx`. -/
def Chip8.op_fx18 (s : Chip8) (x : Nat) : Chip8 := { s with sound_timer := s.vx x }

/-- Opcode Fx1E (`op_fx1e`): `I := I + Vx`. -/
def Chip8.op_fx1e (s : Chip8) (x : Nat) : Chip8 :=
  { s with i := (s.i + s.vx x) % 65536 }

/-- Opcode Fx29 (`op_fx29`): font lookup — `I := FONT_START_ADDR + Vx * 5`.
The source uses the full register value; no nibble masking is applied. -/
def Chip8.op_fx29 (s : Chip8) (x : Nat) : Chip8 :=
  let character := s.vx x
  { s with i := (FONT_START_ADDR + character * 5) % 65536 }

/-- Opcode Fx33 (`op_fx33`): BCD of `Vx` into `ram[I]`, `ram[I+1]`, `ram[I+2]`. -/
def Chip8.op_fx33 (s : Chip8) (x : Nat) : Chip8 :=
  let value := s.vx x
  let m1 := Function.update s.ram s.i (value / 100)
  let m2 := Function.update m1 (s.i + 1) (value / 10 % 10)
  let m3 := Function.update m2 (s.i + 2) (value % 10)
  { s with ram := m3 }

/-- Opcode Fx55 (`op_fx55`): store `V0` through `Vx` into ram at `I`. -/
def Chip8.op_fx55 (s : Chip8) (x : Nat) : Chip8 :=
  let m1 := (List.range (x + 1)).foldl (fun m j => Function.update m (s.i + j) (s.vx j)) s.ram
  { s with ram := m1 }

/-- Opcode Fx65 (`op_fx65`): load `V0` through `Vx` from ram at `I`. -/
def Chip8.op_fx65 (s : Chip8) (x : Nat) : Chip8 :=
  let v1 := (List.range (x + 1)).foldl (fun v j => Function.update v j (s.ram (s.i + j))) s.vx
  { s with vx := v1 }

/-- Decoder/dispatcher (`decode_execute`).  Field extraction uses the same
bit positions as the source (`primary` bits 12-15, `x` bits 8-11, `y`
bits 4-7, `n` bits 0-3, `nn` bits 0-7, `nnn` bits 0-11); dispatch tests
follow the order of the source `match`.  The second component models the
`println!` diagnostic: `some opcode` exactly on the catch-all arm. -/
def Chip8.decode_execute (r : Nat) (s : Chip8) (opcode : Nat) : Chip8 × Option Nat :=
  if opcode / 4096 % 16 = 0x0 then
    if opcode / 256 % 16 = 0x0 ∧ opcode / 16 % 16 = 0xE ∧ opcode % 16 = 0x0 then
      (s.op_00e0, none)
    else if opcode / 256 % 16 = 0x0 ∧ opcode / 16 % 16 = 0xE ∧ opcode % 16 = 0xE then
      (s.op_00ee, none)
    else (s.op_0nnn (opcode % 4096), none)
  else if opcode / 4096 % 16 = 0x1 then (s.op_1nnn (opcode % 4096), none)
  else if opcode / 4096 % 16 = 0x2 then (s.op_2nnn (opcode % 4096), none)
  else if opcode / 4096 % 16 = 0x3 then (s.op_3xnn (opcode / 256 % 16) (opcode % 256), none)
  else if opcode / 4096 % 16 = 0x4 then (s.op_4xnn (opcode / 256 % 16) (opcode % 256), none)
  else if opcode / 4096 % 16 = 0x5 ∧ opcode % 16 = 0x0 then
    (s.op_5xy0 (opcode / 256 % 16) (opcode / 16 % 16), none)
  else if opcode / 4096 % 16 = 0x6 then (s.op_6xnn (opcode / 256 % 16) (opcode % 256), none)
  else if opcode / 4096 % 16 = 0x7 then (s.op_7xnn (opcode / 256 % 16) (opcode % 256), none)
  else if opcode / 4096 % 16 = 0x8 ∧ opcode % 16 = 0x0 then
    (s.op_8xy0 (opcode / 256 % 16) (opcode / 16 % 16), none)
  else if opcode / 4096 % 16 = 0x8 ∧ opcode % 16 = 0x1 then
    (s.op_8xy1 (opcode / 256 % 16) (opcode / 16 % 16), none)
  else if opcode / 4096 % 16 = 0x8 ∧ opcode % 16 = 0x2 then
    (s.op_8xy2 (opcode / 256 % 16) (opcode / 16 % 16), none)
  else if opcode / 4096 % 16 = 0x8 ∧ opcode % 16 = 0x3 then
    (s.op_8xy3 (opcode / 256 % 16) (opcode / 16 % 16), none)
  else if opcode / 4096 % 16 = 0x8 ∧ opcode % 16 = 0x4 then
    (s.op_8xy4 (opcode / 256 % 16) (opcode / 16 % 16), none)
  else if opcode / 4096 % 16 = 0x8 ∧ opcode % 16 = 0x5 then
    (s.op_8xy5 (opcode / 256 % 16) (opcode / 16 % 16), none)
  else if opcode / 4096 % 16 = 0x8 ∧ opcode % 16 = 0x6 then
    (s.op_8xy6 (opcode / 256 % 16) (opcode / 16 % 16), none)
  else if opcode / 4096 % 16 = 0x8 ∧ opcode % 16 = 0x7 then
    (s.op_8xy7 (opcode / 256 % 16) (opcode / 16 % 16), none)
  else if opcode / 4096 % 16 = 0x8 ∧ opcode % 16 = 0xE then
    (s.op_8xye (opcode / 256 % 16) (opcode / 16 % 16), none)
  else if opcode / 4096 % 16 = 0x9 ∧ opcode % 16 = 0x0 then
    (s.op_9xy0 (opcode / 256 % 16) (opcode / 16 % 16), none)
  else if opcode / 4096 % 16 = 0xA then (s.op_annn (opcode % 4096), none)
  else if opcode / 4096 % 16 = 0xB then (s.op_bnnn (opcode % 4096), none)
  else if opcode / 4096 % 16 = 0xC then (s.op_cxnn (opcode / 256 % 16) (opcode % 256) r, none)
  else if opcode / 4096 % 16 = 0xD then
    (s.op_dxyn (opcode / 256 % 16) (opcode / 16 % 16) (opcode % 16), none)
  else if opcode / 4096 % 16 = 0xE ∧ opcode / 16 % 16 = 0x9 ∧ opcode % 16 = 0xE then
    (s.op_ex9e (opcode / 256 % 16), none)
  else if opcode / 4096 % 16 = 0xE ∧ opcode / 16 % 16 = 0xA ∧ opcode % 16 = 0x1 then
    (s.op_exa1 (opcode / 256 % 16), none)
  else if opcode / 4096 % 16 = 0xF ∧ opcode / 16 % 16 = 0x0 ∧ opcode % 16 = 0x7 then
    (s.op_fx07 (opcode / 256 % 16), none)
  else if opcode / 4096 % 16 = 0xF ∧ opcode / 16 % 16 = 0x0 ∧ opcode % 16 = 0xA then
    (s.op_fx0a (opcode / 256 % 16), none)
  else if opcode / 4096 % 16 = 0xF ∧ opcode / 16 % 16 = 0x1 ∧ opcode % 16 = 0x5 then
    (s.op_fx15 (opcode / 256 % 16), none)
  else if opcode / 4096 % 16 = 0xF ∧ opcode / 16 % 16 = 0x1 ∧ opcode % 16 = 0x8 then
    (s.op_fx18 (opcode / 256 % 16), none)
  else if opcode / 4096 % 16 = 0xF ∧ opcode / 16 % 16 = 0x1 ∧ opcode % 16 = 0xE then
    (s.op_fx1e (opcode / 256 % 16), none)
  else if opcode / 4096 % 16 = 0xF ∧ opcode / 16 % 16 = 0x2 ∧ opcode % 16 = 0x9 then
    (s.op_fx29 (opcode / 256 % 16), none)
  else if opcode / 4096 % 16 = 0xF ∧ opcode / 16 % 16 = 0x3 ∧ opcode % 16 = 0x3 then
    (s.op_fx33 (opcode / 256 % 16), none)
  else if opcode / 4096 % 16 = 0xF ∧ opcode / 16 % 16 = 0x5 ∧ opcode % 16 = 0x5 then
    (s.op_fx55 (opcode / 256 % 16), none)
  else if opcode / 4096 % 16 = 0xF ∧ opcode / 16 % 16 = 0x6 ∧ opcode % 16 = 0x5 then
    (s.op_fx65 (opcode / 256 % 16), none)
  else (s, some opcode)

/-- Readout of which instruction words hit a dispatch arm of
`decode_execute` (every word not satisfying this hits the catch-all),
phrased with the same nibble expressions. -/
def opcodeKnown (opcode : Nat) : Bool :=
  if opcode / 4096 % 16 = 0x5 then opcode % 16 = 0x0
  else if opcode / 4096 % 16 = 0x8 then opcode % 16 ≤ 0x7 || opcode % 16 = 0xE
  else if opcode / 4096 % 16 = 0x9 then opcode % 16 = 0x0
  else if opcode / 4096 % 16 = 0xE then
    (opcode / 16 % 16 = 0x9 && opcode % 16 = 0xE) ||
    (opcode / 16 % 16 = 0xA && opcode % 16 = 0x1)
  else if opcode / 4096 % 16 = 0xF then
    (opcode / 16 % 16 = 0x0 && opcode % 16 = 0x7) ||
    (opcode / 16 % 16 = 0x0 && opcode % 16 = 0xA) ||
    (opcode / 16 % 16 = 0x1 && opcode % 16 = 0x5) ||
    (opcode / 16 % 16 = 0x1 && opcode % 16 = 0x8) ||
    (opcode / 16 % 16 = 0x1 && opcode % 16 = 0xE) ||
    (opcode / 16 % 16 = 0x2 && opcode % 16 = 0x9) ||
    (opcode / 16 % 16 = 0x3 && opcode % 16 = 0x3) ||
    (opcode / 16 % 16 = 0x5 && opcode % 16 = 0x5) ||
    (opcode / 16 % 16 = 0x6 && opcode % 16 = 0x5)
  else true

/-- One iteration of the driver loop body in `run`: fetch, then decode
and execute the fetched word (state component only). -/
def Chip8.cycle (r : Nat) (s : Chip8) : Chip8 :=
  let f := s.fetch
  (Chip8.decode_execute r f.2 f.1).1

/-- Screen index of the pixel a sprite bit from column `col` of a row with
wrapped row coordinate `cy` lands on, as computed inside `op_dxyn`. -/
def pix (xc cy col : Nat) : Nat := (xc + col) % 64 + cy * 64

/-- Property that bit `col` (MSB first) of sprite byte `b` is set, as
tested inside `op_dxyn`. -/
def bitSet (b col : Nat) : Prop := b &&& (0x80 >>> col) ≠ 0

instance (b col : Nat) : Decidable (bitSet b col) := by
  unfold bitSet; infer_instance

/-- Coverage predicate of `op_dxyn`: pixel `q` receives a set sprite bit
when drawing the `n`-row sprite at `ram[I..]` of state `s` with starting
coordinates `(xc, yc)`. -/
def spriteCov (s : Chip8) (xc yc n q : Nat) : Prop :=
  ∃ row, row < n ∧ ∃ c, c < 8 ∧ bitSet (s.ram (s.i + row)) c ∧
    q = pix xc ((yc + row) % 32) c

/-- Collision predicate of `op_dxyn`: some set sprite bit of the `n`-row
sprite lands on a pixel of `s` that is already 1. -/
def spriteColl (s : Chip8) (xc yc n : Nat) : Prop :=
  ∃ row, row < n ∧ ∃ c, c < 8 ∧ bitSet (s.ram (s.i + row)) c ∧
    s.display (pix xc ((yc + row) % 32) c) = 1

/-! ### Arithmetic helper lemmas -/

theorem and_255_eq_mod (a : Nat) : a &&& 255 = a % 256 := by
  apply Nat.eq_of_testBit_eq
  intro i
  rw [Nat.testBit_and]
  rw [show (256 : Nat) = 2 ^ 8 by norm_num, Nat.testBit_mod_two_pow]
  rw [show (255 : Nat) = 2 ^ 8 - 1 by norm_num, Nat.testBit_two_pow_sub_one]
  rw [Bool.and_comm]

theorem shiftLeft8_lor_eq (a b : Nat) (hb : b < 256) : (a <<< 8) ||| b = a * 256 + b := by
  apply Nat.eq_of_testBit_eq
  intro i
  rw [Nat.testBit_lor, Nat.testBit_shiftLeft]
  rcases Nat.lt_or_ge i 8 with h | h
  · have h1 : (a * 256 + b) % 2 ^ 8 = b := by omega
    have h2 : ((a * 256 + b) % 2 ^ 8).testBit i = (a * 256 + b).testBit i := by
      rw [Nat.testBit_mod_two_pow]
      simp [h]
    rw [h1] at h2
    rw [← h2]
    simp [Nat.not_le.mpr h]
  · have h2 : (a * 256 + b).testBit i = a.testBit (i - 8) := by
      have h3 : (a * 256 + b) >>> 8 = a := by
        rw [Nat.shiftRight_eq_div_pow]
        norm_num
        omega
      rw [show i = 8 + (i - 8) by omega, ← Nat.testBit_shiftRight, h3]
      congr 1
      omega
    rw [h2]
    have hbb : b.testBit i = false := by
      apply Nat.testBit_lt_two_pow
      calc b < 256 := hb
        _ = 2 ^ 8 := by norm_num
        _ ≤ 2 ^ i := Nat.pow_le_pow_right (by norm_num) h
    simp [hbb, h, GE.ge.le h]

/-! ### C1 — font lookup (Fx29) -/

/-- C1: counterexample to the claim as stated.  With `V0 = 0x10` the code
sets `I` to `0x050 + 5 * 0x10 = 160`, not to the claimed
`0x050 + 5 * (V0 mod 16) = 0x050`: no low-nibble masking is performed. -/
theorem C1_font_lookup_counterexample :
    let ex : Chip8 := { Chip8.new with vx := Function.update Chip8.new.vx 0 16 }
    (ex.op_fx29 0).i = 160 ∧ FONT_START_ADDR + 5 * (ex.vx 0 % 16) = 80 := by
  constructor <;> decide

/-- C1 (amended): for every state and register index, `Fx29` sets the index
register to `FONT_START_ADDR + 5 * Vx` using the full register value
(for byte-valued registers); on the in-range values `Vx < 16` this agrees
with the claimed `0x050 + 5 * (Vx mod 16)`.  No other state field changes. -/
theorem C1_font_lookup (s : Chip8) (x : Nat) :
    (s.vx x < 256 → (s.op_fx29 x).i = FONT_START_ADDR + 5 * s.vx x) ∧
    (s.vx x < 16 → (s.op_fx29 x).i = FONT_START_ADDR + 5 * (s.vx x % 16)) ∧
    (s.op_fx29 x).pc = s.pc ∧ (s.op_fx29 x).vx = s.vx ∧
    (s.op_fx29 x).ram = s.ram ∧ (s.op_fx29 x).display = s.display ∧
    (s.op_fx29 x).draw_flag = s.draw_flag ∧ (s.op_fx29 x).stack = s.stack ∧
    (s.op_fx29 x).sp = s.sp ∧ (s.op_fx29 x).keypad = s.keypad ∧
    (s.op_fx29 x).delay_timer = s.delay_timer ∧
    (s.op_fx29 x).sound_timer = s.sound_timer := by
  unfold Chip8.op_fx29 FONT_START_ADDR
  refine ⟨fun h => ?_, fun h => ?_, rfl, rfl, rfl, rfl, rfl, rfl, rfl, rfl, rfl, rfl⟩
  · simp only
    omega
  · simp only
    rw [Nat.mod_eq_of_lt h]
    omega

/-- C1 witness: the amended theorem applied at a concrete state with
`V0 = 3` gives `I = 0x050 + 15 = 95`. -/
theorem C1_font_lookup_witness :
    let ex : Chip8 := { Chip8.new with vx := Function.update Chip8.new.vx 0 3 }
    ex.vx 0 < 256 ∧ (ex.op_fx29 0).i = FONT_START_ADDR + 5 * ex.vx 0 :=
  ⟨by decide, (C1_font_lookup _ 0).1 (by decide)⟩

/-! ### C2 — unconditional flag writes of the 8-series ALU operations -/

/-- C2: counterexample to the claim as stated.  For `SHR` (`8xy6`) with
`x = 0xF` and `VF = 1`, the shifted-out bit (the flag the claim says `VF`
must hold) is `1`, but the code writes the flag first and then shifts the
destination register `VF` itself, so `VF` ends at `0`. -/
theorem C2_flag_writes_counterexample :
    let ex : Chip8 := { Chip8.new with vx := Function.update Chip8.new.vx 15 1 }
    (ex.op_8xy6 15 2).vx 15 = 0 ∧ ex.vx 15 &&& 0x1 = 1 := by
  constructor <;> decide

/-- C2 (amended): `ADD` (`8xy4`) writes the destination first and the carry
flag last, so `VF` holds the carry computed from the start-of-operation
operands for every `x` including `x = 0xF`.  The other four flag-producing
operations (`8xy5`, `8xy6`, `8xy7`, `8xyE`) write the flag to `VF` first
and then update the destination, so `VF` holds the flag computed from the
start-of-operation operands only when `x ≠ 0xF`; when `x = 0xF` the
subsequent destination write overwrites the flag. -/
theorem C2_flag_writes (s : Chip8) (x y : Nat) :
    ((s.op_8xy4 x y).vx 0xF = if 0xFF < s.vx x + s.vx y then 1 else 0) ∧
    (x ≠ 0xF → (s.op_8xy5 x y).vx 0xF = if s.vx y ≤ s.vx x then 1 else 0) ∧
    (x ≠ 0xF → (s.op_8xy6 x y).vx 0xF = s.vx x &&& 0x1) ∧
    (x ≠ 0xF → (s.op_8xy7 x y).vx 0xF = if s.vx x ≤ s.vx y then 1 else 0) ∧
    (x ≠ 0xF → (s.op_8xye x y).vx 0xF = (s.vx x &&& 0x80) >>> 7) := by
  refine ⟨?_, fun hx => ?_, fun hx => ?_, fun hx => ?_, fun hx => ?_⟩
  · unfold Chip8.op_8xy4
    simp [Function.update_same]
  · unfold Chip8.op_8xy5
    simp only [Function.update_noteq (Ne.symm hx), Function.update_same]
  · unfold Chip8.op_8xy6
    simp only [Function.update_noteq (Ne.symm hx), Function.update_same]
  · unfold Chip8.op_8xy7
    simp only [Function.update_noteq (Ne.symm hx), Function.update_same]
  · unfold Chip8.op_8xye
    simp only [Function.update_noteq (Ne.symm hx), Function.update_same]

/-- C2 witness: the amended theorem applied at a concrete state with
`V2 = 5`, `V3 = 3`: `SUB V2, V3` (`8xy5`) leaves the NOT-borrow `1`
in `VF`. -/
theorem C2_flag_writes_witness :
    let ex : Chip8 :=
      { Chip8.new with vx := Function.update (Function.update Chip8.new.vx 2 5) 3 3 }
    (2 : Nat) ≠ 0xF ∧ (ex.op_8xy5 2 3).vx 0xF = if ex.vx 3 ≤ ex.vx 2 then 1 else 0 :=
  ⟨by decide, (C2_flag_writes _ 2 3).2.1 (by decide)⟩

/-! ### C6 — ADD with carry versus immediate ADD -/

/-- C6: register-register `ADD` (`8xy4`) stores `(Vx + Vy) mod 256` and sets
`VF` to the carry, while immediate `ADD` (`7xNN`) wraps modulo 256 and
leaves `VF` unchanged (for `x ≠ 0xF`); concretely, loading 200, adding
immediate 10, then adding a register holding 100 yields 54 with `VF = 1`,
the earlier non-carrying immediate add leaving `VF = 0`. -/
theorem C6_add_carry :
    (∀ (s : Chip8) (x y nn : Nat), x ≠ 0xF →
      (s.op_8xy4 x y).vx x = (s.vx x + s.vx y) % 256 ∧
      ((s.op_8xy4 x y).vx 0xF = if 255 < s.vx x + s.vx y then 1 else 0) ∧
      (s.op_7xnn x nn).vx x = (s.vx x + nn) % 256 ∧
      (s.op_7xnn x nn).vx 0xF = s.vx 0xF) ∧
    ((((Chip8.new.op_6xnn 0 200).op_7xnn 0 10).vx 0 = 210 ∧
      ((Chip8.new.op_6xnn 0 200).op_7xnn 0 10).vx 15 = 0) ∧
     ((((Chip8.new.op_6xnn 0 200).op_7xnn 0 10).op_6xnn 1 100).op_8xy4 0 1).vx 0 = 54 ∧
     ((((Chip8.new.op_6xnn 0 200).op_7xnn 0 10).op_6xnn 1 100).op_8xy4 0 1).vx 15 = 1) := by
  constructor
  · intro s x y nn hx
    refine ⟨?_, ?_, ?_, ?_⟩
    · unfold Chip8.op_8xy4
      simp only [Function.update_noteq hx, Function.update_same]
      exact and_255_eq_mod _
    · unfold Chip8.op_8xy4
      simp [Function.update_same]
    · unfold Chip8.op_7xnn wrapping_add8
      simp [Function.update_same]
    · unfold Chip8.op_7xnn
      simp only [Function.update_noteq (Ne.symm hx)]
  · exact ⟨⟨by decide, by decide⟩, by decide, by decide⟩

/-- C6 witness: the universal part applied at the concrete state reached
after loading 210 into `V0` and 100 into `V1`. -/
theorem C6_add_carry_witness :
    let ex : Chip8 :=
      { Chip8.new with vx := Function.update (Function.update Chip8.new.vx 0 210) 1 100 }
    (0 : Nat) ≠ 0xF ∧ (ex.op_8xy4 0 1).vx 0 = (ex.vx 0 + ex.vx 1) % 256 :=
  ⟨by decide, ((C6_add_carry.1 _ 0 1 0) (by decide)).1⟩

/-! ### Key-scan helper lemmas -/

theorem findKeyAux_eq_none_iff (kp : Nat → Bool) :
    ∀ n i, findKeyAux kp n i = none ↔ ∀ j, i ≤ j → j < i + n → kp j = false := by
  intro n
  induction n with
  | zero =>
    intro i
    simp only [findKeyAux]
    constructor
    · intro _ j hj1 hj2
      omega
    · intro _
      trivial
  | succ n ih =>
    intro i
    simp only [findKeyAux]
    by_cases hk : kp i
    · rw [if_pos hk]
      constructor
      · intro h
        exact absurd h (by simp)
      · intro h
        have h5 := h i (le_refl i) (by omega)
        rw [hk] at h5
        exact absurd h5 (by simp)
    · rw [if_neg hk]
      rw [ih (i + 1)]
      constructor
      · intro h j hj1 hj2
        rcases Nat.eq_or_lt_of_le hj1 with rfl | hj
        · exact Bool.eq_false_iff.mpr hk
        · exact h j hj (by omega)
      · intro h j hj1 hj2
        exact h j (by omega) (by omega)

theorem findKeyAux_eq_some (kp : Nat → Bool) :
    ∀ n i k, findKeyAux kp n i = some k →
      kp k = true ∧ i ≤ k ∧ k < i + n ∧ ∀ j, i ≤ j → j < k → kp j = false := by
  intro n
  induction n with
  | zero =>
    intro i k h
    exact absurd h (by simp [findKeyAux])
  | succ n ih =>
    intro i k h
    simp only [findKeyAux] at h
    by_cases hk : kp i
    · rw [if_pos hk] at h
      obtain rfl : i = k := by simpa using h
      exact ⟨hk, le_refl i, by omega, fun j hj1 hj2 => by omega⟩
    · rw [if_neg hk] at h
      obtain ⟨h1, h2, h3, h4⟩ := ih (i + 1) k h
      refine ⟨h1, by omega, by omega, fun j hj1 hj2 => ?_⟩
      rcases Nat.eq_or_lt_of_le hj1 with rfl | hj
      · exact Bool.eq_false_iff.mpr hk
      · exact h4 j (by omega) hj2

/-! ### C3 — key-wait opcode (Fx0A) -/

/-- C3: the key-wait opcode scans keys 1..15 in ascending order.  When some
key in that range is pressed it stores the smallest pressed index in `Vx`
and leaves `pc` alone; when none is (whatever key 0 is doing) it rewinds
`pc` by two; composed with the fetch of its own instruction word, a whole
fetch-execute cycle is the identity, so arbitrarily many repeated cycles
leave the program counter (indeed the whole state) unchanged. -/
theorem C3_key_wait :
    (∀ (s : Chip8) (x : Nat), (∃ j, 1 ≤ j ∧ j ≤ 15 ∧ s.keypad j = true) →
      ∃ k, s.keypad k = true ∧ 1 ≤ k ∧ k ≤ 15 ∧
        (∀ j, 1 ≤ j → j < k → s.keypad j = false) ∧
        s.op_fx0a x = { s with vx := Function.update s.vx x k }) ∧
    (∀ (s : Chip8) (x : Nat), (∀ j, 1 ≤ j → j ≤ 15 → s.keypad j = false) →
      2 ≤ s.pc → s.pc < 65536 →
      s.op_fx0a x = { s with pc := s.pc - 2 }) ∧
    (∀ (r : Nat) (s : Chip8) (x m : Nat), x < 16 → s.pc < 65536 →
      s.ram s.pc = 0xF0 + x → s.ram (s.pc + 1) = 0x0A →
      (∀ j, 1 ≤ j → j ≤ 15 → s.keypad j = false) →
      Chip8.cycle r s = s ∧ (Chip8.cycle r)^[m] s = s) := by
  have hnone : ∀ (s : Chip8), (∀ j, 1 ≤ j → j ≤ 15 → s.keypad j = false) →
      findKeyAux s.keypad 15 1 = none := by
    intro s hkeys
    rw [findKeyAux_eq_none_iff]
    intro j hj1 hj2
    exact hkeys j hj1 (by omega)
  refine ⟨?_, ?_, ?_⟩
  · intro s x hex
    cases h : findKeyAux s.keypad 15 1 with
    | none =>
      rw [findKeyAux_eq_none_iff] at h
      obtain ⟨j, hj1, hj2, hj3⟩ := hex
      have := h j hj1 (by omega)
      rw [hj3] at this
      exact absurd this (by simp)
    | some k =>
      obtain ⟨h1, h2, h3, h4⟩ := findKeyAux_eq_some s.keypad 15 1 k h
      refine ⟨k, h1, h2, by omega, fun j hj1 hj2 => h4 j hj1 hj2, ?_⟩
      unfold Chip8.op_fx0a
      rw [h]
  · intro s x hkeys hpc1 hpc2
    unfold Chip8.op_fx0a
    rw [hnone s hkeys]
    have : (s.pc + 65534) % 65536 = s.pc - 2 := by omega
    rw [this]
  · intro r s x m hx hpc hb1 hb2 hkeys
    have hfix : Chip8.cycle r s = s := by
      have hw : s.fetch.1 = (0xF0 + x) * 256 + 0x0A := by
        show (s.ram s.pc <<< 8) ||| s.ram (s.pc + 1) = _
        rw [hb1, hb2]
        exact shiftLeft8_lor_eq _ _ (by norm_num)
      have hw2 : s.fetch.2 = { s with pc := (s.pc + 2) % 65536 } := rfl
      have hp : ((0xF0 + x) * 256 + 0x0A) / 4096 % 16 = 0xF := by omega
      have hxn : ((0xF0 + x) * 256 + 0x0A) / 256 % 16 = x := by omega
      have hyn : ((0xF0 + x) * 256 + 0x0A) / 16 % 16 = 0x0 := by omega
      have hnn : ((0xF0 + x) * 256 + 0x0A) % 16 = 0xA := by omega
      show (Chip8.decode_execute r s.fetch.2 s.fetch.1).1 = s
      rw [hw, hw2]
      simp only [Chip8.decode_execute]
      simp only [hp, hxn, hyn, hnn]
      norm_num
      simp only [Chip8.op_fx0a]
      rw [show ({ s with pc := (s.pc + 2) % 65536 } : Chip8).keypad = s.keypad from rfl,
        hnone s hkeys]
      simp only
      have h6 : ((s.pc + 2) % 65536 + 65534) % 65536 = s.pc := by omega
      rw [h6]
    exact ⟨hfix, Function.iterate_fixed hfix m⟩

/-- C3 witness: a concrete state whose current instruction word is `F00A`
with no key pressed; three cycles leave it fixed. -/
theorem C3_key_wait_witness :
    let ex : Chip8 :=
      { Chip8.new with
        pc := 0x200
        ram := Function.update (Function.update Chip8.new.ram 0x200 0xF0) 0x201 0x0A }
    Chip8.cycle 0 ex = ex ∧ (Chip8.cycle 0)^[3] ex = ex :=
  C3_key_wait.2.2 0 _ 0 3 (by decide) (by decide) (by decide) (by decide)
    (fun j hj1 hj2 => rfl)

/-! ### C7 — call/return round trip -/

/-- C7: from a state with stack pointer 0, fetching a word and executing
`CALL A` (`2nnn`) pushes the post-fetch program counter (the address of
the instruction following the call), sets `sp` to 1 and `pc` to `A`; a
subsequent `RET` (`00EE`) restores `pc` to the pushed return address and
`sp` to 0, leaving registers, memory and display untouched, so the next
fetch reads the word immediately following the original call. -/
theorem C7_call_ret (s : Chip8) (A : Nat) (hsp : s.sp = 0) (hpc : s.pc + 2 < 65536) :
    (s.fetch.2.op_2nnn A).stack 0 = s.pc + 2 ∧
    (s.fetch.2.op_2nnn A).sp = 1 ∧
    (s.fetch.2.op_2nnn A).pc = A ∧
    ((s.fetch.2.op_2nnn A).op_00ee).pc = s.pc + 2 ∧
    ((s.fetch.2.op_2nnn A).op_00ee).sp = 0 ∧
    ((s.fetch.2.op_2nnn A).op_00ee).vx = s.vx ∧
    ((s.fetch.2.op_2nnn A).op_00ee).ram = s.ram ∧
    ((s.fetch.2.op_2nnn A).op_00ee).display = s.display ∧
    ((s.fetch.2.op_2nnn A).op_00ee).fetch.1 =
      (s.ram (s.pc + 2) <<< 8) ||| s.ram (s.pc + 2 + 1) := by
  have hmod : (s.pc + 2) % 65536 = s.pc + 2 := by omega
  have hsp3 : ((s.sp + 1) % 65536 + 65535) % 65536 = 0 := by omega
  have hpc3 : Function.update s.stack s.sp ((s.pc + 2) % 65536)
      (((s.sp + 1) % 65536 + 65535) % 65536) = s.pc + 2 := by
    rw [hsp3, hsp, Function.update_same]
    exact hmod
  simp only [Chip8.fetch, Chip8.op_2nnn, Chip8.op_00ee]
  refine ⟨?_, ?_, trivial, ?_, ?_, trivial, trivial, trivial, ?_⟩
  · rw [hsp, Function.update_same]
    exact hmod
  · rw [hsp]
  · exact hpc3
  · exact hsp3
  · rw [hpc3]

/-- C7 witness: the round trip applied to a concrete freshly loaded state
calling address `0x300`. -/
theorem C7_call_ret_witness :
    let ex : Chip8 := { Chip8.new with pc := 0x200 }
    ((ex.fetch.2.op_2nnn 0x300).op_00ee).pc = ex.pc + 2 ∧
    ((ex.fetch.2.op_2nnn 0x300).op_00ee).sp = 0 :=
  ⟨(C7_call_ret _ 0x300 (by decide) (by decide)).2.2.2.1,
   (C7_call_ret _ 0x300 (by decide) (by decide)).2.2.2.2.1⟩

/-! ### C9 — ROM load followed by first fetch -/

/-- C9: `load_rom` copies exactly `min length 3584` bytes of the ROM to
addresses from 0x200 on (dropping the excess, leaving all other memory
alone) and resets `pc` to 0x200; for a ROM of at least 2 and fewer than
3584 bytes, one fetch returns the big-endian word formed from the first
two ROM bytes and leaves `pc` at 0x202. -/
theorem C9_load_fetch (s : Chip8) (data : List Nat) :
    (s.load_rom data).pc = 0x200 ∧
    (∀ j, j < min data.length 3584 → (s.load_rom data).ram (0x200 + j) = data.getD j 0) ∧
    (∀ a, a < 0x200 ∨ 0x200 + min data.length 3584 ≤ a → (s.load_rom data).ram a = s.ram a) ∧
    (2 ≤ data.length → data.length < 3584 →
      (s.load_rom data).fetch.1 = (data.getD 0 0 <<< 8) ||| data.getD 1 0 ∧
      (s.load_rom data).fetch.2.pc = 0x202) := by
  refine ⟨rfl, ?_, ?_, ?_⟩
  · intro j hj
    show (if 0x200 ≤ 0x200 + j ∧ 0x200 + j < 0x200 + min data.length (4096 - 0x200)
          then data.getD (0x200 + j - 0x200) 0 else s.ram (0x200 + j)) = data.getD j 0
    rw [if_pos (by omega)]
    have h7 : 0x200 + j - 0x200 = j := by omega
    rw [h7]
  · intro a ha
    show (if 0x200 ≤ a ∧ a < 0x200 + min data.length (4096 - 0x200)
          then data.getD (a - 0x200) 0 else s.ram a) = s.ram a
    rw [if_neg (by omega)]
  · intro h2 h3
    have hmin : min data.length (4096 - 0x200) = data.length := by omega
    constructor
    · show ((if 0x200 ≤ 0x200 ∧ 0x200 < 0x200 + min data.length (4096 - 0x200)
             then data.getD (0x200 - 0x200) 0 else s.ram 0x200) <<< 8) |||
           (if 0x200 ≤ 0x200 + 1 ∧ 0x200 + 1 < 0x200 + min data.length (4096 - 0x200)
            then data.getD (0x200 + 1 - 0x200) 0 else s.ram (0x200 + 1)) =
           (data.getD 0 0 <<< 8) ||| data.getD 1 0
      rw [if_pos (by omega), if_pos (by omega)]
    · show (0x200 + 2) % 65536 = 0x202
      norm_num

/-- C9 witness: loading the two-byte ROM `[0x12, 0x34]` and fetching once
yields the word `0x1234` with the program counter at `0x202`. -/
theorem C9_load_fetch_witness :
    (2 ≤ ([0x12, 0x34] : List Nat).length ∧ ([0x12, 0x34] : List Nat).length < 3584) ∧
    (Chip8.new.load_rom [0x12, 0x34]).fetch.1 =
      (([0x12, 0x34] : List Nat).getD 0 0 <<< 8) ||| ([0x12, 0x34] : List Nat).getD 1 0 ∧
    (Chip8.new.load_rom [0x12, 0x34]).fetch.2.pc = 0x202 :=
  ⟨⟨by decide, by decide⟩,
   (C9_load_fetch Chip8.new [0x12, 0x34]).2.2.2 (by decide) (by decide)⟩

/-! ### C8 — unknown opcodes are reported and ignored -/

/-- C8: every instruction word that matches none of the dispatch patterns
of `decode_execute` leaves the machine state completely unchanged and
produces a diagnostic report carrying the raw word (and nothing else);
execution is free to continue at the next instruction. -/
theorem C8_unknown_opcode (r : Nat) (s : Chip8) (opcode : Nat)
    (h : opcodeKnown opcode = false) :
    Chip8.decode_execute r s opcode = (s, some opcode) := by
  simp only [opcodeKnown] at h
  unfold Chip8.decode_execute
  revert h
  generalize opcode / 4096 % 16 = p
  generalize opcode / 256 % 16 = xv
  generalize opcode / 16 % 16 = yv
  generalize opcode % 16 = nv
  generalize opcode % 256 = nnv
  generalize opcode % 4096 = av
  intro h
  split_ifs at h <;> simp at h <;>
    rw [if_neg (show ¬(p = 0x0) by omega),
      if_neg (show ¬(p = 0x1) by omega),
      if_neg (show ¬(p = 0x2) by omega),
      if_neg (show ¬(p = 0x3) by omega),
      if_neg (show ¬(p = 0x4) by omega),
      if_neg (show ¬(p = 0x5 ∧ nv = 0x0) by omega),
      if_neg (show ¬(p = 0x6) by omega),
      if_neg (show ¬(p = 0x7) by omega),
      if_neg (show ¬(p = 0x8 ∧ nv = 0x0) by omega),
      if_neg (show ¬(p = 0x8 ∧ nv = 0x1) by omega),
      if_neg (show ¬(p = 0x8 ∧ nv = 0x2) by omega),
      if_neg (show ¬(p = 0x8 ∧ nv = 0x3) by omega),
      if_neg (show ¬(p = 0x8 ∧ nv = 0x4) by omega),
      if_neg (show ¬(p = 0x8 ∧ nv = 0x5) by omega),
      if_neg (show ¬(p = 0x8 ∧ nv = 0x6) by omega),
      if_neg (show ¬(p = 0x8 ∧ nv = 0x7) by omega),
      if_neg (show ¬(p = 0x8 ∧ nv = 0xE) by omega),
      if_neg (show ¬(p = 0x9 ∧ nv = 0x0) by omega),
      if_neg (show ¬(p = 0xA) by omega),
      if_neg (show ¬(p = 0xB) by omega),
      if_neg (show ¬(p = 0xC) by omega),
      if_neg (show ¬(p = 0xD) by omega),
      if_neg (show ¬(p = 0xE ∧ yv = 0x9 ∧ nv = 0xE) by omega),
      if_neg (show ¬(p = 0xE ∧ yv = 0xA ∧ nv = 0x1) by omega),
      if_neg (show ¬(p = 0xF ∧ yv = 0x0 ∧ nv = 0x7) by omega),
      if_neg (show ¬(p = 0xF ∧ yv = 0x0 ∧ nv = 0xA) by omega),
      if_neg (show ¬(p = 0xF ∧ yv = 0x1 ∧ nv = 0x5) by omega),
      if_neg (show ¬(p = 0xF ∧ yv = 0x1 ∧ nv = 0x8) by omega),
      if_neg (show ¬(p = 0xF ∧ yv = 0x1 ∧ nv = 0xE) by omega),
      if_neg (show ¬(p = 0xF ∧ yv = 0x2 ∧ nv = 0x9) by omega),
      if_neg (show ¬(p = 0xF ∧ yv = 0x3 ∧ nv = 0x3) by omega),
      if_neg (show ¬(p = 0xF ∧ yv = 0x5 ∧ nv = 0x5) by omega),
      if_neg (show ¬(p = 0xF ∧ yv = 0x6 ∧ nv = 0x5) by omega)]

/-- C8 witness: the word `0x5001` (a 5-series word with low nibble 1)
matches no pattern; executing it from the fresh machine reports it and
changes nothing. -/
theorem C8_unknown_opcode_witness :
    opcodeKnown 0x5001 = false ∧
    Chip8.decode_execute 0 Chip8.new 0x5001 = (Chip8.new, some 0x5001) :=
  ⟨by decide, C8_unknown_opcode 0 Chip8.new 0x5001 (by decide)⟩

/-! ### C10 — determinism away from the random opcode -/

/-- C10: `decode_execute` does not depend on the drawn random byte for any
word whose primary nibble is not `0xC`; for `CxNN` words with `NN = 0` it
is also independent of the byte, and the handler `op_cxnn` then always
stores 0 in the destination register. -/
theorem C10_determinism :
    (∀ (r1 r2 : Nat) (s : Chip8) (opcode : Nat), opcode / 4096 % 16 ≠ 0xC →
      Chip8.decode_execute r1 s opcode = Chip8.decode_execute r2 s opcode) ∧
    (∀ (r1 r2 : Nat) (s : Chip8) (opcode : Nat), opcode % 256 = 0 →
      Chip8.decode_execute r1 s opcode = Chip8.decode_execute r2 s opcode) ∧
    (∀ (r : Nat) (s : Chip8) (x : Nat), (s.op_cxnn x 0 r).vx x = 0) := by
  refine ⟨?_, ?_, ?_⟩
  · intro r1 r2 s opcode h
    unfold Chip8.decode_execute
    rw [if_neg h, if_neg h]
  · intro r1 r2 s opcode h
    unfold Chip8.decode_execute
    by_cases hc : opcode / 4096 % 16 = 0xC
    · rw [if_pos hc, if_pos hc, h]
      simp only [Chip8.op_cxnn, Nat.and_zero]
    · rw [if_neg hc, if_neg hc]
  · intro r s x
    show Function.update s.vx x ((r % 256) &&& 0) x = 0
    rw [Function.update_same]
    exact Nat.and_zero _

/-- C10 witness: two different random seeds give the same result on the
clear-screen word `0x00E0`, whose primary nibble is not `0xC`. -/
theorem C10_determinism_witness :
    (0x00E0 : Nat) / 4096 % 16 ≠ 0xC ∧
    Chip8.decode_execute 0 Chip8.new 0x00E0 = Chip8.decode_execute 77 Chip8.new 0x00E0 :=
  ⟨by decide, C10_determinism.1 0 77 Chip8.new 0x00E0 (by decide)⟩

/-! ### Sprite-draw helper lemmas -/

theorem exists_lt_succ_iff (P : Nat → Prop) (k : Nat) :
    (∃ c, c < k + 1 ∧ P c) ↔ (∃ c, c < k ∧ P c) ∨ P k := by
  constructor
  · rintro ⟨c, hc, hp⟩
    rcases Nat.lt_or_ge c k with h | h
    · exact Or.inl ⟨c, h, hp⟩
    · have hck : c = k := by omega
      subst hck
      exact Or.inr hp
  · rintro (⟨c, hc, hp⟩ | hp)
    · exact ⟨c, by omega, hp⟩
    · exact ⟨k, by omega, hp⟩

theorem pix_inj (xc : Nat) {cy1 cy2 c1 c2 : Nat} (_h1 : cy1 < 32) (_h2 : cy2 < 32)
    (hc1 : c1 < 64) (hc2 : c2 < 64) (h : pix xc cy1 c1 = pix xc cy2 c2) :
    cy1 = cy2 ∧ c1 = c2 := by
  unfold pix at h
  constructor <;> omega

theorem drawCol_frame (xc cy b : Nat) (s : Chip8) (col : Nat) :
    (Chip8.drawCol xc cy b s col).ram = s.ram ∧
    (Chip8.drawCol xc cy b s col).i = s.i ∧
    (Chip8.drawCol xc cy b s col).pc = s.pc ∧
    (Chip8.drawCol xc cy b s col).draw_flag = s.draw_flag ∧
    (Chip8.drawCol xc cy b s col).stack = s.stack ∧
    (Chip8.drawCol xc cy b s col).sp = s.sp ∧
    (Chip8.drawCol xc cy b s col).keypad = s.keypad ∧
    (Chip8.drawCol xc cy b s col).delay_timer = s.delay_timer ∧
    (Chip8.drawCol xc cy b s col).sound_timer = s.sound_timer := by
  unfold Chip8.drawCol
  split_ifs <;> exact ⟨rfl, rfl, rfl, rfl, rfl, rfl, rfl, rfl, rfl⟩

theorem drawCol_nobit (xc cy b : Nat) (s : Chip8) (col : Nat) (hb : ¬ bitSet b col) :
    Chip8.drawCol xc cy b s col = s := by
  have hb2 : ¬ (b &&& (0x80 >>> col) ≠ 0) := hb
  unfold Chip8.drawCol
  rw [if_neg hb2]

theorem drawCol_display (xc cy b : Nat) (s : Chip8) (col : Nat) (hb : bitSet b col) :
    (Chip8.drawCol xc cy b s col).display =
      Function.update s.display (pix xc cy col) (s.display (pix xc cy col) ^^^ 1) := by
  have hb2 : b &&& (0x80 >>> col) ≠ 0 := hb
  unfold Chip8.drawCol
  rw [if_pos hb2]
  split_ifs <;> rfl

theorem drawCol_vx_coll (xc cy b : Nat) (s : Chip8) (col : Nat) (hb : bitSet b col)
    (hd : s.display (pix xc cy col) = 1) :
    (Chip8.drawCol xc cy b s col).vx = Function.update s.vx 0xF 1 := by
  have hb2 : b &&& (0x80 >>> col) ≠ 0 := hb
  have hd2 : s.display ((xc + col) % 64 + cy * 64) = 1 := hd
  unfold Chip8.drawCol
  rw [if_pos hb2, if_pos hd2]

theorem drawCol_vx_nocoll (xc cy b : Nat) (s : Chip8) (col : Nat) (hb : bitSet b col)
    (hd : s.display (pix xc cy col) ≠ 1) :
    (Chip8.drawCol xc cy b s col).vx = s.vx := by
  have hb2 : b &&& (0x80 >>> col) ≠ 0 := hb
  have hd2 : ¬ s.display ((xc + col) % 64 + cy * 64) = 1 := hd
  unfold Chip8.drawCol
  rw [if_pos hb2, if_neg hd2]

theorem foldl_range_succ {α : Type} (f : α → Nat → α) (t : α) (k : Nat) :
    (List.range (k + 1)).foldl f t = f ((List.range k).foldl f t) k := by
  rw [List.range_succ, List.foldl_append, List.foldl_cons, List.foldl_nil]

theorem drawCols_frame (xc cy b : Nat) (t : Chip8) (k : Nat) :
    ((List.range k).foldl (Chip8.drawCol xc cy b) t).ram = t.ram ∧
    ((List.range k).foldl (Chip8.drawCol xc cy b) t).i = t.i ∧
    ((List.range k).foldl (Chip8.drawCol xc cy b) t).pc = t.pc ∧
    ((List.range k).foldl (Chip8.drawCol xc cy b) t).draw_flag = t.draw_flag ∧
    ((List.range k).foldl (Chip8.drawCol xc cy b) t).stack = t.stack ∧
    ((List.range k).foldl (Chip8.drawCol xc cy b) t).sp = t.sp ∧
    ((List.range k).foldl (Chip8.drawCol xc cy b) t).keypad = t.keypad ∧
    ((List.range k).foldl (Chip8.drawCol xc cy b) t).delay_timer = t.delay_timer ∧
    ((List.range k).foldl (Chip8.drawCol xc cy b) t).sound_timer = t.sound_timer := by
  induction k with
  | zero => exact ⟨rfl, rfl, rfl, rfl, rfl, rfl, rfl, rfl, rfl⟩
  | succ k ih =>
    rw [foldl_range_succ]
    obtain ⟨h1, h2, h3, h4, h5, h6, h7, h8, h9⟩ := ih
    obtain ⟨g1, g2, g3, g4, g5, g6, g7, g8, g9⟩ :=
      drawCol_frame xc cy b ((List.range k).foldl (Chip8.drawCol xc cy b) t) k
    exact ⟨g1.trans h1, g2.trans h2, g3.trans h3, g4.trans h4, g5.trans h5,
      g6.trans h6, g7.trans h7, g8.trans h8, g9.trans h9⟩

theorem drawCols_spec (xc cy b : Nat) (t : Chip8) :
    ∀ k, k ≤ 64 →
    (∀ q, (∃ c, c < k ∧ bitSet b c ∧ q = pix xc cy c) →
      ((List.range k).foldl (Chip8.drawCol xc cy b) t).display q = t.display q ^^^ 1) ∧
    (∀ q, ¬ (∃ c, c < k ∧ bitSet b c ∧ q = pix xc cy c) →
      ((List.range k).foldl (Chip8.drawCol xc cy b) t).display q = t.display q) ∧
    ((∃ c, c < k ∧ bitSet b c ∧ t.display (pix xc cy c) = 1) →
      ((List.range k).foldl (Chip8.drawCol xc cy b) t).vx = Function.update t.vx 0xF 1) ∧
    (¬ (∃ c, c < k ∧ bitSet b c ∧ t.display (pix xc cy c) = 1) →
      ((List.range k).foldl (Chip8.drawCol xc cy b) t).vx = t.vx) := by
  intro k
  induction k with
  | zero =>
    intro _
    refine ⟨?_, ?_, ?_, ?_⟩
    · rintro q ⟨c, hc, -⟩
      omega
    · intro q _
      rfl
    · rintro ⟨c, hc, -⟩
      omega
    · intro _
      rfl
  | succ k ih =>
    intro hk
    obtain ⟨ih1, ih2, ih3, ih4⟩ := ih (by omega)
    rw [foldl_range_succ]
    set u := (List.range k).foldl (Chip8.drawCol xc cy b) t with hu
    have hnc : ¬ (∃ c, c < k ∧ bitSet b c ∧ pix xc cy k = pix xc cy c) := by
      rintro ⟨c, hc, -, hpx⟩
      unfold pix at hpx
      omega
    have hdk : u.display (pix xc cy k) = t.display (pix xc cy k) := ih2 _ hnc
    by_cases hb : bitSet b k
    · have hdisp := drawCol_display xc cy b u k hb
      have hpart1 : ∀ q, (∃ c, c < k + 1 ∧ bitSet b c ∧ q = pix xc cy c) →
          (Chip8.drawCol xc cy b u k).display q = t.display q ^^^ 1 := by
        rintro q ⟨c, hc, hbc, hq⟩
        rw [hdisp]
        rcases Nat.lt_or_ge c k with hck | hck
        · have hqk : q ≠ pix xc cy k := by
            rw [hq]
            intro he
            unfold pix at he
            omega
          rw [Function.update_noteq hqk]
          exact ih1 q ⟨c, hck, hbc, hq⟩
        · have hck2 : c = k := by omega
          subst hck2
          rw [hq, Function.update_same, hdk]
      have hpart2 : ∀ q, ¬ (∃ c, c < k + 1 ∧ bitSet b c ∧ q = pix xc cy c) →
          (Chip8.drawCol xc cy b u k).display q = t.display q := by
        intro q hq
        rw [hdisp]
        have hqk : q ≠ pix xc cy k := fun he => hq ⟨k, by omega, hb, he⟩
        rw [Function.update_noteq hqk]
        exact ih2 q (fun hcov => hq (by
          obtain ⟨c, hc, hbc, hqc⟩ := hcov
          exact ⟨c, by omega, hbc, hqc⟩))
      by_cases hcol : t.display (pix xc cy k) = 1
      · have hvx := drawCol_vx_coll xc cy b u k hb (hdk.trans hcol)
        refine ⟨hpart1, hpart2, ?_, ?_⟩
        · intro _
          rw [hvx]
          by_cases hc2 : ∃ c, c < k ∧ bitSet b c ∧ t.display (pix xc cy c) = 1
          · rw [ih3 hc2, Function.update_idem]
          · rw [ih4 hc2]
        · intro hno
          exact absurd ⟨k, by omega, hb, hcol⟩ hno
      · have hvx := drawCol_vx_nocoll xc cy b u k hb (by rw [hdk]; exact hcol)
        refine ⟨hpart1, hpart2, ?_, ?_⟩
        · intro hex
          rw [hvx]
          apply ih3
          obtain ⟨c, hc, hbc, hdc⟩ := hex
          rcases Nat.lt_or_ge c k with hck | hck
          · exact ⟨c, hck, hbc, hdc⟩
          · have hck2 : c = k := by omega
            subst hck2
            exact absurd hdc hcol
        · intro hno
          rw [hvx]
          exact ih4 (fun hex => hno (by
            obtain ⟨c, hc, hbc, hdc⟩ := hex
            exact ⟨c, by omega, hbc, hdc⟩))
    · rw [drawCol_nobit xc cy b u k hb]
      refine ⟨?_, ?_, ?_, ?_⟩
      · rintro q ⟨c, hc, hbc, hq⟩
        rcases Nat.lt_or_ge c k with hck | hck
        · exact ih1 q ⟨c, hck, hbc, hq⟩
        · have hck2 : c = k := by omega
          subst hck2
          exact absurd hbc hb
      · intro q hq
        exact ih2 q (fun hcov => hq (by
          obtain ⟨c, hc, hbc, hqc⟩ := hcov
          exact ⟨c, by omega, hbc, hqc⟩))
      · rintro ⟨c, hc, hbc, hdc⟩
        rcases Nat.lt_or_ge c k with hck | hck
        · exact ih3 ⟨c, hck, hbc, hdc⟩
        · have hck2 : c = k := by omega
          subst hck2
          exact absurd hbc hb
      · intro hno
        exact ih4 (fun hex => hno (by
          obtain ⟨c, hc, hbc, hdc⟩ := hex
          exact ⟨c, by omega, hbc, hdc⟩))

theorem drawRow_frame (xc yc : Nat) (s : Chip8) (row : Nat) :
    (Chip8.drawRow xc yc s row).ram = s.ram ∧
    (Chip8.drawRow xc yc s row).i = s.i ∧
    (Chip8.drawRow xc yc s row).pc = s.pc ∧
    (Chip8.drawRow xc yc s row).draw_flag = s.draw_flag ∧
    (Chip8.drawRow xc yc s row).stack = s.stack ∧
    (Chip8.drawRow xc yc s row).sp = s.sp ∧
    (Chip8.drawRow xc yc s row).keypad = s.keypad ∧
    (Chip8.drawRow xc yc s row).delay_timer = s.delay_timer ∧
    (Chip8.drawRow xc yc s row).sound_timer = s.sound_timer := by
  unfold Chip8.drawRow
  exact drawCols_frame xc ((yc + row) % 32) (s.ram (s.i + row)) s 8

theorem drawRows_frame (xc yc : Nat) (s0 : Chip8) (m : Nat) :
    ((List.range m).foldl (Chip8.drawRow xc yc) s0).ram = s0.ram ∧
    ((List.range m).foldl (Chip8.drawRow xc yc) s0).i = s0.i ∧
    ((List.range m).foldl (Chip8.drawRow xc yc) s0).pc = s0.pc ∧
    ((List.range m).foldl (Chip8.drawRow xc yc) s0).draw_flag = s0.draw_flag ∧
    ((List.range m).foldl (Chip8.drawRow xc yc) s0).stack = s0.stack ∧
    ((List.range m).foldl (Chip8.drawRow xc yc) s0).sp = s0.sp ∧
    ((List.range m).foldl (Chip8.drawRow xc yc) s0).keypad = s0.keypad ∧
    ((List.range m).foldl (Chip8.drawRow xc yc) s0).delay_timer = s0.delay_timer ∧
    ((List.range m).foldl (Chip8.drawRow xc yc) s0).sound_timer = s0.sound_timer := by
  induction m with
  | zero => exact ⟨rfl, rfl, rfl, rfl, rfl, rfl, rfl, rfl, rfl⟩
  | succ m ih =>
    rw [foldl_range_succ]
    obtain ⟨h1, h2, h3, h4, h5, h6, h7, h8, h9⟩ := ih
    obtain ⟨g1, g2, g3, g4, g5, g6, g7, g8, g9⟩ :=
      drawRow_frame xc yc ((List.range m).foldl (Chip8.drawRow xc yc) s0) m
    exact ⟨g1.trans h1, g2.trans h2, g3.trans h3, g4.trans h4, g5.trans h5,
      g6.trans h6, g7.trans h7, g8.trans h8, g9.trans h9⟩

theorem drawRows_spec (xc yc : Nat) (s0 : Chip8) :
    ∀ m, m ≤ 32 →
    (∀ q, spriteCov s0 xc yc m q →
      ((List.range m).foldl (Chip8.drawRow xc yc) s0).display q = s0.display q ^^^ 1) ∧
    (∀ q, ¬ spriteCov s0 xc yc m q →
      ((List.range m).foldl (Chip8.drawRow xc yc) s0).display q = s0.display q) ∧
    (spriteColl s0 xc yc m →
      ((List.range m).foldl (Chip8.drawRow xc yc) s0).vx = Function.update s0.vx 0xF 1) ∧
    (¬ spriteColl s0 xc yc m →
      ((List.range m).foldl (Chip8.drawRow xc yc) s0).vx = s0.vx) := by
  intro m
  induction m with
  | zero =>
    intro _
    refine ⟨?_, ?_, ?_, ?_⟩
    · rintro q ⟨row, hrow, -⟩
      omega
    · intro q _
      rfl
    · rintro ⟨row, hrow, -⟩
      omega
    · intro _
      rfl
  | succ m ih =>
    intro hm
    obtain ⟨ih1, ih2, ih3, ih4⟩ := ih (by omega)
    rw [foldl_range_succ]
    set u := (List.range m).foldl (Chip8.drawRow xc yc) s0 with hu
    obtain ⟨hram, hi, -, -, -, -, -, -, -⟩ := drawRows_frame xc yc s0 m
    have hrw : Chip8.drawRow xc yc u m =
        (List.range 8).foldl (Chip8.drawCol xc ((yc + m) % 32) (s0.ram (s0.i + m))) u := by
      unfold Chip8.drawRow
      rw [hram, hi]
    rw [hrw]
    obtain ⟨j1, j2, j3, j4⟩ :=
      drawCols_spec xc ((yc + m) % 32) (s0.ram (s0.i + m)) u 8 (by omega)
    have hymod : ∀ r : Nat, (yc + r) % 32 < 32 := fun r => Nat.mod_lt _ (by norm_num)
    have hdisj : ∀ c, c < 8 → ¬ spriteCov s0 xc yc m (pix xc ((yc + m) % 32) c) := by
      rintro c hc ⟨row, hrow, c2, hc2, -, hpx⟩
      obtain ⟨hcy, -⟩ := pix_inj xc (hymod m) (hymod row) (by omega) (by omega) hpx
      omega
    have hud : ∀ c, c < 8 →
        u.display (pix xc ((yc + m) % 32) c) = s0.display (pix xc ((yc + m) % 32) c) :=
      fun c hc => ih2 _ (hdisj c hc)
    refine ⟨?_, ?_, ?_, ?_⟩
    · rintro q ⟨row, hrow, c, hc, hbc, hq⟩
      rcases Nat.lt_or_ge row m with hrm | hrm
      · have hninner : ¬ (∃ c2, c2 < 8 ∧ bitSet (s0.ram (s0.i + m)) c2 ∧
            q = pix xc ((yc + m) % 32) c2) := by
          rintro ⟨c2, hc2, -, hq2⟩
          rw [hq] at hq2
          obtain ⟨hcy, -⟩ := pix_inj xc (hymod row) (hymod m) (by omega) (by omega) hq2
          omega
        rw [j2 q hninner]
        exact ih1 q ⟨row, hrm, c, hc, hbc, hq⟩
      · have hrm2 : row = m := by omega
        subst hrm2
        rw [j1 q ⟨c, hc, hbc, hq⟩]
        rw [ih2 q (by rw [hq]; exact hdisj c hc)]
    · intro q hq
      have hninner : ¬ (∃ c2, c2 < 8 ∧ bitSet (s0.ram (s0.i + m)) c2 ∧
          q = pix xc ((yc + m) % 32) c2) := by
        rintro ⟨c2, hc2, hbc2, hq2⟩
        exact hq ⟨m, by omega, c2, hc2, hbc2, hq2⟩
      rw [j2 q hninner]
      exact ih2 q (fun hcov => hq (by
        obtain ⟨row, hrow, c, hc, hbc, hqc⟩ := hcov
        exact ⟨row, by omega, c, hc, hbc, hqc⟩))
    · intro hcoll
      by_cases hrc : ∃ c, c < 8 ∧ bitSet (s0.ram (s0.i + m)) c ∧
          s0.display (pix xc ((yc + m) % 32) c) = 1
      · have hrc2 : ∃ c, c < 8 ∧ bitSet (s0.ram (s0.i + m)) c ∧
            u.display (pix xc ((yc + m) % 32) c) = 1 := by
          obtain ⟨c, hc, hbc, hdc⟩ := hrc
          exact ⟨c, hc, hbc, (hud c hc).trans hdc⟩
        rw [j3 hrc2]
        by_cases hmc : spriteColl s0 xc yc m
        · rw [ih3 hmc, Function.update_idem]
        · rw [ih4 hmc]
      · have hrc2 : ¬ (∃ c, c < 8 ∧ bitSet (s0.ram (s0.i + m)) c ∧
            u.display (pix xc ((yc + m) % 32) c) = 1) := by
          rintro ⟨c, hc, hbc, hdc⟩
          exact hrc ⟨c, hc, hbc, (hud c hc).symm.trans hdc⟩
        rw [j4 hrc2]
        apply ih3
        obtain ⟨row, hrow, c, hc, hbc, hdc⟩ := hcoll
        rcases Nat.lt_or_ge row m with hrm | hrm
        · exact ⟨row, hrm, c, hc, hbc, hdc⟩
        · have hrm2 : row = m := by omega
          subst hrm2
          exact absurd ⟨c, hc, hbc, hdc⟩ hrc
    · intro hno
      have hrc2 : ¬ (∃ c, c < 8 ∧ bitSet (s0.ram (s0.i + m)) c ∧
          u.display (pix xc ((yc + m) % 32) c) = 1) := by
        rintro ⟨c, hc, hbc, hdc⟩
        exact hno ⟨m, by omega, c, hc, hbc, (hud c hc).symm.trans hdc⟩
      rw [j4 hrc2]
      exact ih4 (fun hcoll => hno (by
        obtain ⟨row, hrow, c, hc, hbc, hdc⟩ := hcoll
        exact ⟨row, by omega, c, hc, hbc, hdc⟩))

theorem dxyn_spec (s : Chip8) (x y n : Nat) (hn : n ≤ 32) :
    (s.op_dxyn x y n).draw_flag = true ∧
    (∀ q, spriteCov s (s.vx x % 64) (s.vx y % 32) n q →
      (s.op_dxyn x y n).display q = s.display q ^^^ 1) ∧
    (∀ q, ¬ spriteCov s (s.vx x % 64) (s.vx y % 32) n q →
      (s.op_dxyn x y n).display q = s.display q) ∧
    (spriteColl s (s.vx x % 64) (s.vx y % 32) n →
      (s.op_dxyn x y n).vx = Function.update s.vx 0xF 1) ∧
    (¬ spriteColl s (s.vx x % 64) (s.vx y % 32) n →
      (s.op_dxyn x y n).vx = Function.update s.vx 0xF 0) ∧
    (s.op_dxyn x y n).ram = s.ram ∧ (s.op_dxyn x y n).i = s.i ∧
    (s.op_dxyn x y n).pc = s.pc ∧ (s.op_dxyn x y n).stack = s.stack ∧
    (s.op_dxyn x y n).sp = s.sp ∧ (s.op_dxyn x y n).keypad = s.keypad ∧
    (s.op_dxyn x y n).delay_timer = s.delay_timer ∧
    (s.op_dxyn x y n).sound_timer = s.sound_timer := by
  obtain ⟨k1, k2, k3, k4⟩ :=
    drawRows_spec (s.vx x % 64) (s.vx y % 32)
      { s with vx := Function.update s.vx 0xF 0 } n hn
  obtain ⟨f1, f2, f3, f4, f5, f6, f7, f8, f9⟩ :=
    drawRows_frame (s.vx x % 64) (s.vx y % 32)
      { s with vx := Function.update s.vx 0xF 0 } n
  refine ⟨rfl, ?_, ?_, ?_, ?_, f1, f2, f3, f5, f6, f7, f8, f9⟩
  · intro q hcov
    exact k1 q hcov
  · intro q hncov
    exact k2 q hncov
  · intro hcoll
    have h5 : (s.op_dxyn x y n).vx =
        Function.update (Function.update s.vx 0xF 0) 0xF 1 := k3 hcoll
    rw [h5, Function.update_idem]
  · intro hncoll
    exact k4 hncoll

/-! ### C4 — sprite draw -/

/-- C4: for every state with the `n` sprite rows in bounds, the draw opcode
starts at `(Vx mod 64, Vy mod 32)`, XORs each set sprite bit (MSB first,
both coordinates wrapped per pixel) onto the destination pixel and leaves
every other pixel alone; `VF` ends at 1 exactly when some set sprite bit
lands on a pixel that is already 1 (else 0, having been reset at the
start); the dirty flag is set unconditionally and no other state field
changes. -/
theorem C4_draw_sprite (s : Chip8) (x y n : Nat) (hn : n < 16) (hbound : s.i + n ≤ 4096) :
    (s.op_dxyn x y n).draw_flag = true ∧
    (∀ q, spriteCov s (s.vx x % 64) (s.vx y % 32) n q →
      (s.op_dxyn x y n).display q = s.display q ^^^ 1) ∧
    (∀ q, ¬ spriteCov s (s.vx x % 64) (s.vx y % 32) n q →
      (s.op_dxyn x y n).display q = s.display q) ∧
    ((s.op_dxyn x y n).vx 0xF = 1 ↔ spriteColl s (s.vx x % 64) (s.vx y % 32) n) ∧
    (∀ k, k ≠ 0xF → (s.op_dxyn x y n).vx k = s.vx k) ∧
    (s.op_dxyn x y n).ram = s.ram ∧ (s.op_dxyn x y n).i = s.i ∧
    (s.op_dxyn x y n).pc = s.pc ∧ (s.op_dxyn x y n).stack = s.stack ∧
    (s.op_dxyn x y n).sp = s.sp ∧ (s.op_dxyn x y n).keypad = s.keypad ∧
    (s.op_dxyn x y n).delay_timer = s.delay_timer ∧
    (s.op_dxyn x y n).sound_timer = s.sound_timer := by
  obtain ⟨hf, h1, h2, h3, h4, hr, hi2, hp, hst, hsp2, hk, hd2, hs2⟩ :=
    dxyn_spec s x y n (by omega)
  refine ⟨hf, h1, h2, ?_, ?_, hr, hi2, hp, hst, hsp2, hk, hd2, hs2⟩
  · constructor
    · intro hv
      by_contra hncoll
      rw [h4 hncoll, Function.update_same] at hv
      exact absurd hv (by omega)
    · intro hcoll
      rw [h3 hcoll, Function.update_same]
  · intro k hk15
    by_cases hcoll : spriteColl s (s.vx x % 64) (s.vx y % 32) n
    · rw [h3 hcoll, Function.update_noteq hk15]
    · rw [h4 hcoll, Function.update_noteq hk15]

/-- C4 witness: drawing the one-row sprite `0x80` at the origin of a fresh
machine turns pixel 0 on, reports no collision and sets the dirty flag. -/
theorem C4_draw_sprite_witness :
    let ex : Chip8 :=
      { Chip8.new with
        i := 0x200
        ram := Function.update Chip8.new.ram 0x200 0x80 }
    (1 : Nat) < 16 ∧ ex.i + 1 ≤ 4096 ∧
    (ex.op_dxyn 0 1 1).draw_flag = true ∧
    (ex.op_dxyn 0 1 1).display 0 = ex.display 0 ^^^ 1 := by
  refine ⟨by decide, by decide, (C4_draw_sprite _ 0 1 1 (by decide) (by decide)).1, ?_⟩
  exact (C4_draw_sprite _ 0 1 1 (by decide) (by decide)).2.1 0
    ⟨0, by omega, 0, by omega, by decide, by decide⟩

/-! ### C5 — drawing the same sprite twice -/

/-- C5: counterexample to the claim as stated.  On a state whose display
already has pixel 0 set, drawing the one-bit sprite `0x80` at the origin
twice leaves the second draw's `VF` at 0 even though the sprite has a set
bit: the first draw turned the pixel off, so the second draw collides
with nothing. -/
theorem C5_redraw_counterexample :
    let cex : Chip8 :=
      { Chip8.new with
        i := 0x200
        ram := Function.update Chip8.new.ram 0x200 0x80
        display := Function.update Chip8.new.display 0 1 }
    ((cex.op_dxyn 0 1 1).op_dxyn 0 1 1).vx 0xF = 0 ∧
    cex.ram (cex.i + 0) &&& (0x80 >>> 0) ≠ 0 := by
  constructor <;> decide

/-- C5 (amended): drawing the same in-bounds sprite twice in succession
(destination registers other than `VF`) restores every display pixel to
its value before the first draw; and provided every covered pixel is 0
before the first draw (for instance on a cleared screen), the second draw
sets `VF` to 1 whenever the sprite has at least one set bit, each such
bit colliding with the pixel the first draw turned on.  Without that
proviso the collision part fails (see the counterexample): a covered
pixel that started at 1 is turned off by the first draw and produces no
collision in the second. -/
theorem C5_redraw (s : Chip8) (x y n : Nat) (hn : n < 16) (hx : x ≠ 0xF) (hy : y ≠ 0xF)
    (hbound : s.i + n ≤ 4096) :
    (∀ q, ((s.op_dxyn x y n).op_dxyn x y n).display q = s.display q) ∧
    ((∀ row c, row < n → c < 8 → bitSet (s.ram (s.i + row)) c →
        s.display (pix (s.vx x % 64) ((s.vx y % 32 + row) % 32) c) = 0) →
      (∃ row, row < n ∧ ∃ c, c < 8 ∧ bitSet (s.ram (s.i + row)) c) →
      ((s.op_dxyn x y n).op_dxyn x y n).vx 0xF = 1) := by
  obtain ⟨hf, h1, h2, h3, h4, hr, hi2, hp, hst, hsp2, hk, hd2, hs2⟩ :=
    dxyn_spec s x y n (by omega)
  obtain ⟨hf', h1', h2', h3', h4', hr', hi2', hp', hst', hsp2', hk', hd2', hs2'⟩ :=
    dxyn_spec (s.op_dxyn x y n) x y n (by omega)
  have hvxx : (s.op_dxyn x y n).vx x = s.vx x := by
    by_cases hcoll : spriteColl s (s.vx x % 64) (s.vx y % 32) n
    · rw [h3 hcoll, Function.update_noteq hx]
    · rw [h4 hcoll, Function.update_noteq hx]
  have hvxy : (s.op_dxyn x y n).vx y = s.vx y := by
    by_cases hcoll : spriteColl s (s.vx x % 64) (s.vx y % 32) n
    · rw [h3 hcoll, Function.update_noteq hy]
    · rw [h4 hcoll, Function.update_noteq hy]
  have hcov_iff : ∀ q,
      spriteCov (s.op_dxyn x y n) ((s.op_dxyn x y n).vx x % 64)
        ((s.op_dxyn x y n).vx y % 32) n q ↔
      spriteCov s (s.vx x % 64) (s.vx y % 32) n q := by
    intro q
    unfold spriteCov
    simp only [hr, hi2, hvxx, hvxy]
  refine ⟨?_, ?_⟩
  · intro q
    by_cases hcov : spriteCov s (s.vx x % 64) (s.vx y % 32) n q
    · have e1 := h1 q hcov
      have e2 := h1' q ((hcov_iff q).mpr hcov)
      rw [e2, e1, Nat.xor_assoc, Nat.xor_self, Nat.xor_zero]
    · have e2 := h2' q (fun hc => hcov ((hcov_iff q).mp hc))
      rw [e2, h2 q hcov]
  · intro hclear hex
    obtain ⟨row, hrow, c, hc, hbc⟩ := hex
    have hcovq : spriteCov s (s.vx x % 64) (s.vx y % 32) n
        (pix (s.vx x % 64) ((s.vx y % 32 + row) % 32) c) :=
      ⟨row, hrow, c, hc, hbc, rfl⟩
    have hdisp1 : (s.op_dxyn x y n).display
        (pix (s.vx x % 64) ((s.vx y % 32 + row) % 32) c) = 1 := by
      rw [h1 _ hcovq, hclear row c hrow hc hbc]
      decide
    have hcoll2 : spriteColl (s.op_dxyn x y n) ((s.op_dxyn x y n).vx x % 64)
        ((s.op_dxyn x y n).vx y % 32) n := by
      refine ⟨row, hrow, c, hc, ?_, ?_⟩
      · rw [hr, hi2]
        exact hbc
      · rw [hvxx, hvxy]
        exact hdisp1
    rw [h3' hcoll2, Function.update_same]

/-- C5 witness: on a fresh machine with the one-bit sprite `0x80` at
`I = 0x200`, drawing twice at the origin restores the (blank) display and
the second draw reports a collision. -/
theorem C5_redraw_witness :
    let ex : Chip8 :=
      { Chip8.new with
        i := 0x200
        ram := Function.update Chip8.new.ram 0x200 0x80 }
    (∀ q, ((ex.op_dxyn 0 1 1).op_dxyn 0 1 1).display q = ex.display q) ∧
    ((ex.op_dxyn 0 1 1).op_dxyn 0 1 1).vx 0xF = 1 :=
  ⟨(C5_redraw _ 0 1 1 (by decide) (by decide) (by decide) (by decide)).1,
   (C5_redraw _ 0 1 1 (by decide) (by decide) (by decide) (by decide)).2
     (fun _row _c _hr _hc _hb => rfl) ⟨0, by decide, 0, by decide, by decide⟩⟩

end Chip8Emu
